import Mathlib

/-!
Shallow embedding of `src/model/loader.rs` (the GLTF model loader of the
Motley repository) together with proofs about its behaviour.

Modelling conventions:
* Rust panics (`expect`, out-of-bounds indexing) are modelled by `Option`:
  a function returns `none` exactly when the Rust code would panic, so a
  `some` result corresponds to a `Model` value actually being returned.
* The external document parser (`gltf::import`) is a collaborator: the
  embedding starts from its output, a `Document` whose attribute streams
  have already been read into lists (this is what `primitive.reader`
  yields in the Rust code).
* The external texture loader is modelled by a `Texture` that records the
  path string it was invoked with, which is the only observable the loader
  passes to it.
* The `f32` vector components are only ever copied from the document into
  the output records, never computed with, so they are represented by an
  arbitrary scalar type with decidable equality (`Int`).
-/

set_option autoImplicit false

namespace Motley

/-- Scalar component of the geometry vectors (stands for `f32`; the loader
only moves these values, it performs no arithmetic on them). -/
abbrev Scalar := Int

/-- 2-component vector (`glam::Vec2`). -/
structure Vec2 where
  x : Scalar
  y : Scalar
deriving DecidableEq, Repr

/-- 3-component vector (`glam::Vec3`). -/
structure Vec3 where
  x : Scalar
  y : Scalar
  z : Scalar
deriving DecidableEq, Repr

/-- 4-component vector (`glam::Vec4`). -/
structure Vec4 where
  x : Scalar
  y : Scalar
  z : Scalar
  w : Scalar
deriving DecidableEq, Repr

/-- `Vec2::ZERO`. -/
def Vec2.zero : Vec2 := ⟨0, 0⟩

/-- `Vec3::ZERO`. -/
def Vec3.zero : Vec3 := ⟨0, 0, 0⟩

/-- `Vec4::ONE`. -/
def Vec4.one : Vec4 := ⟨1, 1, 1, 1⟩

/-- `Vertex` from `loader.rs`: position, normal and texture coordinate. -/
structure Vertex where
  position : Vec3
  normal : Vec3
  tex_coord : Vec2
deriving DecidableEq, Repr

/-- `impl Default for Vertex`: zeroed position, normal and tex coord. -/
def Vertex.default : Vertex :=
  { position := Vec3.zero
    normal := Vec3.zero
    tex_coord := Vec2.zero }

/-- The texture resource produced by the external texture loader; it is
opaque to the loader, so it is represented by the path it was loaded from
(the only datum the loader hands to the collaborator). -/
structure Texture where
  path : String
deriving DecidableEq, Repr

/-- `load_texture` collaborator: turns a path into an owned texture. -/
def load_texture (path : String) : Texture := ⟨path⟩

/-- `Mesh` from `loader.rs`. Indices are `u32` values copied verbatim from
the document, represented as naturals. -/
structure Mesh where
  vertices : List Vertex
  indices : List Nat
  material_idx : Nat
deriving DecidableEq, Repr

/-- `Material` from `loader.rs`. -/
structure Material where
  base_color : Vec4
  base_color_texture : Option Texture
deriving DecidableEq, Repr

/-- `impl Default for Material`: opaque white, no texture. -/
def Material.default : Material :=
  { base_color := Vec4.one
    base_color_texture := none }

/-- `Model` from `loader.rs`. -/
structure Model where
  meshes : List Mesh
  materials : List Material
deriving DecidableEq, Repr

/-! ### The parsed GLTF document (output of the `gltf::import` collaborator) -/

/-- `gltf::mesh::Mode`: the topology of a primitive. -/
inductive Mode where
  | points
  | lines
  | lineLoop
  | lineStrip
  | triangles
  | triangleStrip
  | triangleFan
deriving DecidableEq, Repr

/-- `gltf::image::Source`: a texture image either referenced by URI or
embedded in a buffer view. -/
inductive ImageSource where
  | uri (u : String)
  | view
deriving DecidableEq, Repr

/-- A material as declared in the GLTF document: its PBR base-color factor
(`pbr_metallic_roughness().base_color_factor()`) and, when present, the
source of its base-color texture
(`pbr.base_color_texture().texture().source().source()`). -/
structure GMaterial where
  base_color_factor : Vec4
  base_color_texture : Option ImageSource
deriving DecidableEq, Repr

/-- A primitive of the document, with its attribute streams already read
through `primitive.reader`:
`read_positions` / `read_normals` / `read_tex_coords(0).into_f32()` /
`read_indices().into_u32()`, each `none` when the stream is absent, and
`primitive.material().index()`. -/
structure Primitive where
  mode : Mode
  positions : Option (List Vec3)
  normals : Option (List Vec3)
  tex_coords : Option (List Vec2)
  indices : Option (List Nat)
  material_index : Option Nat
deriving DecidableEq, Repr

/-- A top-level node: `node.mesh()` gives, when present, the mesh's list of
primitives. -/
structure GNode where
  mesh : Option (List Primitive)
deriving DecidableEq, Repr

/-- The parsed document: its declared material list (`document.materials()`)
and its node list (`document.nodes()`). -/
structure Document where
  materials : List GMaterial
  nodes : List GNode
deriving DecidableEq, Repr

/-- The `gltf` crate's default material, returned by `primitive.material()`
when the primitive declares no material index: base-color factor
`[1, 1, 1, 1]` and no base-color texture. -/
def gltfDefaultMaterial : GMaterial :=
  { base_color_factor := Vec4.one
    base_color_texture := none }

/-- `primitive.material()`: the document material referenced by the
primitive, or the crate's default material when no index is declared.
A declared index outside the document's material list makes the crate
panic (`none` here). -/
def resolvePrimMaterial (docMaterials : List GMaterial) :
    Option Nat → Option GMaterial
  | some i => docMaterials[i]?
  | none => some gltfDefaultMaterial

/-! ### Path handling (`std::path`), restricted to Unix-style strings.

`rustParent` mirrors `Path::parent` and `rustJoin` mirrors `Path::join`
for ordinary paths (no trailing separator, no repeated separators). -/

/-- `Path::new(p).parent()`: `none` for the root and the empty path,
otherwise the path with its last component removed. -/
def rustParent (p : String) : Option String :=
  if p = "" || p = "/" then none
  else
    match p.toList.reverse.dropWhile (fun c => c ≠ '/') with
    | [] => some ("")
    | ['/'] => some ("/")
    | _ :: tail => some (String.mk tail.reverse)

/-- `Path::is_absolute` for Unix-style path strings: the first character is
the separator. -/
def startsWithSlash (p : String) : Bool :=
  match p.toList with
  | c :: _ => c = '/'
  | [] => false

/-- Whether a path string already ends with the separator. -/
def endsWithSlash (p : String) : Bool :=
  match p.toList.reverse with
  | c :: _ => c = '/'
  | [] => false

/-- `base.join(rel)`: `rel` when it is absolute, otherwise `base` extended
with a separator and `rel`. -/
def rustJoin (base : String) (rel : String) : String :=
  if startsWithSlash rel then rel
  else if base = "" then rel
  else if endsWithSlash base then base ++ rel
  else base ++ "/" ++ rel

/-- Lines 129-131 of `loader.rs`: the path handed to `load_texture` —
the model file's parent directory (`"./"` when it has none) joined with
the texture URI. -/
def texturePath (file_path : String) (uri : String) : String :=
  rustJoin ((rustParent file_path).getD ("./")) uri

/-! ### The loader itself -/

/-- The two attribute-overwriting loops of `process_node`
(`for (i, normal) in normals.enumerate() { vertices[i].normal = … }` and
likewise for tex coords): starting at index `i`, write each stream entry
into the vertex at that index with `upd`; writing past the end of
`vertices` is an out-of-bounds panic (`none`). -/
def overwriteFrom {α : Type} (upd : Vertex → α → Vertex) :
    List Vertex → Nat → List α → Option (List Vertex)
  | vertices, _, [] => some vertices
  | vertices, i, a :: rest =>
    match vertices[i]? with
    | some v => overwriteFrom upd (vertices.set i (upd v a)) (i + 1) rest
    | none => none

/-- Lines 103-107 of `process_node`: `if let Some(normals) = reader.read_normals()`,
overwrite each vertex's normal by stream position. -/
def overwriteNormals (vertices : List Vertex) : Option (List Vec3) → Option (List Vertex)
  | some normals => overwriteFrom (fun v n => { v with normal := n }) vertices 0 normals
  | none => some vertices

/-- Lines 109-113 of `process_node`: `if let Some(tex_coords) = reader.read_tex_coords(0)`,
overwrite each vertex's texture coordinate by stream position. -/
def overwriteTexCoords (vertices : List Vertex) : Option (List Vec2) → Option (List Vertex)
  | some tex_coords => overwriteFrom (fun v t => { v with tex_coord := t }) vertices 0 tex_coords
  | none => some vertices

/-- Lines 86-113 of `process_node` (the vertex assembler): read the
mandatory position stream (`expect`: absence panics), build one vertex per
position with the remaining fields defaulted, then overwrite normals and
texture coordinates from their streams when present. -/
def buildVertices (p : Primitive) : Option (List Vertex) :=
  match p.positions with
  | none => none
  | some positions =>
    let vertices := positions.map fun position => { Vertex.default with position := position }
    match overwriteNormals vertices p.normals with
    | none => none
    | some vertices => overwriteTexCoords vertices p.tex_coords

/-- Lines 126-135 of `process_node` (the material slot update): overwrite
the slot's base color with the resolved material's PBR base-color factor,
and, when that material has a URI-sourced base-color texture, store the
texture loaded from the resolved path; a buffer-view source leaves the
texture field untouched. -/
def updatedSlot (file_path : String) (prim_material : GMaterial)
    (slot : Material) : Material :=
  let slot := { slot with base_color := prim_material.base_color_factor }
  match prim_material.base_color_texture with
  | some (ImageSource.uri u) =>
      { slot with base_color_texture := some (load_texture (texturePath file_path u)) }
  | some ImageSource.view => slot
  | none => slot

/-- The body of the per-primitive loop of `process_node` (lines 81-142):
for a triangle-list primitive, assemble the vertices, read the mandatory
index stream (`expect`: absence panics), resolve the material and its slot
index (`index().unwrap_or(0)`), update the slot in the material array
(out-of-range indexing panics), and emit the mesh; a primitive of any
other topology changes nothing and emits no mesh. -/
def processPrimitive (docMaterials : List GMaterial) (file_path : String)
    (p : Primitive) (materials : List Material) :
    Option (List Material × Option Mesh) :=
  if p.mode = Mode.triangles then
    match buildVertices p with
    | none => none
    | some vertices =>
      match p.indices with
      | none => none
      | some indices =>
        match resolvePrimMaterial docMaterials p.material_index with
        | none => none
        | some prim_material =>
          let material_idx := p.material_index.getD 0
          match materials[material_idx]? with
          | none => none
          | some slot =>
            some (materials.set material_idx (updatedSlot file_path prim_material slot),
              some { vertices := vertices, indices := indices, material_idx := material_idx })
  else
    some (materials, none)

/-- The `for primitive in mesh.primitives()` loop of `process_node`:
process the primitives in order, appending each produced mesh to the
accumulator and threading the mutated material array. -/
def processPrimitives (docMaterials : List GMaterial) (file_path : String) :
    List Primitive → List Mesh → List Material → Option (List Mesh × List Material)
  | [], meshes, materials => some (meshes, materials)
  | p :: rest, meshes, materials =>
    match processPrimitive docMaterials file_path p materials with
    | none => none
    | some r =>
      processPrimitives docMaterials file_path rest
        (match r.2 with
          | some mesh => meshes ++ [mesh]
          | none => meshes)
        r.1

/-- `process_node` from `loader.rs`: a node without an attached mesh
produces nothing; otherwise its primitives are processed in order. The
document's material list is threaded in because `primitive.material()`
resolves indices against it. -/
def process_node (docMaterials : List GMaterial) (node : GNode)
    (meshes : List Mesh) (materials : List Material) (file_path : String) :
    Option (List Mesh × List Material) :=
  match node.mesh with
  | some primitives => processPrimitives docMaterials file_path primitives meshes materials
  | none => some (meshes, materials)

/-- Lines 156-159 of `load_model`: one default material slot per declared
document material, and a single default slot pushed when the document
declares none. -/
def initialMaterials (document : Document) : List Material :=
  let materials := List.replicate document.materials.length Material.default
  if materials.isEmpty then materials ++ [Material.default] else materials

/-- `load_model` from `loader.rs`, starting from the imported document
(`gltf::import` is the external parser; its own failure aborts before any
of this code runs): prepare the material slots, process exactly the first
top-level node when one exists, and assemble the `Model`. -/
def load_model (document : Document) (file_path : String) : Option Model :=
  let meshes : List Mesh := []
  let materials := initialMaterials document
  let processed := match document.nodes with
    | node :: _ => process_node document.materials node meshes materials file_path
    | [] => some (meshes, materials)
  match processed with
  | none => none
  | some r => some { meshes := r.1, materials := r.2 }

/-- The primitives of the first top-level node (empty when the document has
no node or the first node carries no mesh); these are exactly the
primitives `load_model` ever processes. -/
def firstNodePrimitives (document : Document) : List Primitive :=
  match document.nodes with
  | node :: _ => node.mesh.getD []
  | [] => []

/-- A single-node document whose only primitive is a triangle list with the
given position and index streams and nothing else (no normals, no texture
coordinates, no declared materials). -/
def singleNodeDoc (ps : List Vec3) (is : List Nat) : Document :=
  { materials := []
    nodes := [⟨some [⟨Mode.triangles, some ps, none, none, some is, none⟩]⟩] }

/-! ### Concrete example assets (used to exercise the theorems) -/

/-- A minimal well-formed triangle primitive: three positions, three
indices, no other streams, no material reference. -/
def wPrim1 : Primitive :=
  ⟨Mode.triangles, some [⟨0, 0, 0⟩, ⟨1, 0, 0⟩, ⟨0, 1, 0⟩], none, none,
    some [0, 1, 2], none⟩

/-- A document declaring zero materials holding only `wPrim1`. -/
def wDoc1 : Document := ⟨[], [⟨some [wPrim1]⟩]⟩

/-- The mesh `load_model` produces from `wDoc1`. -/
def wMesh1 : Mesh :=
  ⟨[⟨⟨0, 0, 0⟩, Vec3.zero, Vec2.zero⟩, ⟨⟨1, 0, 0⟩, Vec3.zero, Vec2.zero⟩,
    ⟨⟨0, 1, 0⟩, Vec3.zero, Vec2.zero⟩], [0, 1, 2], 0⟩

/-- The model `load_model` produces from `wDoc1`. -/
def wModel1 : Model := ⟨[wMesh1], [Material.default]⟩

/-- A triangle-list primitive declaring FOUR indices (an index count that
is not a multiple of three); nothing in the loader rejects it. -/
def cadPrim : Primitive :=
  ⟨Mode.triangles, some [⟨0, 0, 0⟩, ⟨1, 0, 0⟩, ⟨0, 1, 0⟩], none, none,
    some [0, 1, 2, 0], none⟩

/-- A document holding only `cadPrim`. -/
def cadDoc : Document := ⟨[], [⟨some [cadPrim]⟩]⟩

/-- The mesh the loader produces from `cadPrim`: its index list is the
declared four-entry stream, untouched. -/
def cadMesh : Mesh :=
  ⟨[⟨⟨0, 0, 0⟩, Vec3.zero, Vec2.zero⟩, ⟨⟨1, 0, 0⟩, Vec3.zero, Vec2.zero⟩,
    ⟨⟨0, 1, 0⟩, Vec3.zero, Vec2.zero⟩], [0, 1, 2, 0], 0⟩

/-- A primitive with two positions and a one-entry normal stream. -/
def w5Prim : Primitive :=
  ⟨Mode.triangles, some [⟨1, 2, 3⟩, ⟨4, 5, 6⟩], some [⟨7, 8, 9⟩], none,
    some [0, 1, 0], none⟩

/-- The mesh produced from `w5Prim`: the first vertex takes the supplied
normal, the second keeps the zero default. -/
def w5Mesh : Mesh :=
  ⟨[⟨⟨1, 2, 3⟩, ⟨7, 8, 9⟩, Vec2.zero⟩, ⟨⟨4, 5, 6⟩, Vec3.zero, Vec2.zero⟩],
    [0, 1, 0], 0⟩

/-- First writer to material slot 0: no explicit material reference, so the
crate's default white factor is resolved. -/
def w7p1 : Primitive :=
  ⟨Mode.triangles, some [⟨0, 0, 0⟩], none, none, some [0, 0, 0], none⟩

/-- Second (last) writer to material slot 0: explicit reference to the
declared material with factor `(9,9,9,9)`. -/
def w7p2 : Primitive :=
  ⟨Mode.triangles, some [⟨0, 0, 0⟩], none, none, some [0, 0, 0], some 0⟩

/-- One declared material with factor `(9,9,9,9)`, two primitives whose
resolved slot index is 0. -/
def w7doc : Document := ⟨[⟨⟨9, 9, 9, 9⟩, none⟩], [⟨some [w7p1, w7p2]⟩]⟩

/-- The model loaded from `w7doc`: slot 0 holds the factor of the last
processed primitive. -/
def w7model : Model :=
  ⟨[⟨[⟨⟨0, 0, 0⟩, Vec3.zero, Vec2.zero⟩], [0, 0, 0], 0⟩,
    ⟨[⟨⟨0, 0, 0⟩, Vec3.zero, Vec2.zero⟩], [0, 0, 0], 0⟩],
   [⟨⟨9, 9, 9, 9⟩, none⟩]⟩

/-- A triangle-list primitive with no position stream. -/
def w8p : Primitive := ⟨Mode.triangles, none, none, none, some [0, 1, 2], none⟩

/-- A document holding only `w8p`. -/
def w8doc : Document := ⟨[], [⟨some [w8p]⟩]⟩

/-- A declared material whose base-color texture is a file-relative URI. -/
def w9gm : GMaterial := ⟨Vec4.one, some (ImageSource.uri ("foo.png"))⟩

/-- A primitive referencing `w9gm`. -/
def w9p : Primitive :=
  ⟨Mode.triangles, some [⟨0, 0, 0⟩], none, none, some [0, 0, 0], some 0⟩

/-- The mesh produced from `w9p`. -/
def w9mesh : Mesh := ⟨[⟨⟨0, 0, 0⟩, Vec3.zero, Vec2.zero⟩], [0, 0, 0], 0⟩

/-- The material slots after processing `w9p` from `/assets/scene.gltf`:
slot 0 holds the texture loaded from the resolved path. -/
def w9mats : List Material :=
  [⟨Vec4.one, some (load_texture ("/assets/foo.png"))⟩]

/-- A document declaring one material with a non-white factor and no nodes
at all: its declared factor is never copied into the loaded model. -/
def w10doc : Document := ⟨[⟨⟨2, 3, 4, 5⟩, none⟩], []⟩

/-! ### Proofs -/

/-- Length is preserved by the overwriting loops: `List.set` never changes
the length. -/
theorem overwriteFrom_length {α : Type} (upd : Vertex → α → Vertex) (as : List α) :
    ∀ (vs : List Vertex) (k : Nat) (vs' : List Vertex),
      overwriteFrom upd vs k as = some vs' → vs'.length = vs.length := by
  induction as with
  | nil =>
    intro vs k vs' h
    simp [overwriteFrom] at h
    simp [← h]
  | cons a rest ih =>
    intro vs k vs' h
    simp only [overwriteFrom] at h
    cases hk : vs[k]? with
    | none => simp [hk] at h
    | some v =>
      simp only [hk] at h
      have := ih (vs.set k (upd v a)) (k + 1) vs' h
      simpa using this

/-- Pointwise description of the overwriting loops: entry `i` is updated
with stream element `i - k` when `k ≤ i < k +` stream length, and untouched
otherwise. -/
theorem overwriteFrom_getElem? {α : Type} (upd : Vertex → α → Vertex) (d : α)
    (as : List α) :
    ∀ (vs : List Vertex) (k : Nat) (vs' : List Vertex),
      overwriteFrom upd vs k as = some vs' → ∀ i : Nat,
      vs'[i]? = if k ≤ i ∧ i - k < as.length
        then (vs[i]?).map fun v => upd v (as.getD (i - k) d)
        else vs[i]? := by
  induction as with
  | nil =>
    intro vs k vs' h i
    simp [overwriteFrom] at h
    simp [← h]
  | cons a rest ih =>
    intro vs k vs' h i
    simp only [overwriteFrom] at h
    cases hk : vs[k]? with
    | none => simp [hk] at h
    | some v =>
      simp only [hk] at h
      have hklen : k < vs.length := (List.getElem?_eq_some.mp hk).1
      have ihh := ih (vs.set k (upd v a)) (k + 1) vs' h i
      rcases Nat.lt_trichotomy i k with hik | hik | hik
      · have c1 : ¬ (k + 1 ≤ i ∧ i - (k + 1) < rest.length) := by omega
        have c2 : ¬ (k ≤ i ∧ i - k < (a :: rest).length) := by
          simp only [List.length_cons]; omega
        rw [ihh, if_neg c1, if_neg c2]
        have hne : k ≠ i := by omega
        simp [List.getElem?_set, hne]
      · subst hik
        have c1 : ¬ (i + 1 ≤ i ∧ i - (i + 1) < rest.length) := by omega
        have c2 : i ≤ i ∧ i - i < (a :: rest).length := by
          simp only [List.length_cons]; omega
        rw [ihh, if_neg c1, if_pos c2, hk]
        simp [List.getElem?_set, hklen, hk, Nat.sub_self]
      · have hk1 : k + 1 ≤ i := hik
        have hne : k ≠ i := by omega
        have hset : (vs.set k (upd v a))[i]? = vs[i]? := by
          simp [List.getElem?_set, hne]
        rw [ihh]
        by_cases c : i - (k + 1) < rest.length
        · have c1 : k + 1 ≤ i ∧ i - (k + 1) < rest.length := ⟨hk1, c⟩
          have c2 : k ≤ i ∧ i - k < (a :: rest).length := by
            simp only [List.length_cons]; omega
          rw [if_pos c1, if_pos c2, hset]
          have hik' : i - k = (i - (k + 1)) + 1 := by omega
          rw [hik']
          simp [List.getD]
        · have c1 : ¬ (k + 1 ≤ i ∧ i - (k + 1) < rest.length) := by omega
          have c2 : ¬ (k ≤ i ∧ i - k < (a :: rest).length) := by
            simp only [List.length_cons]; omega
          rw [if_neg c1, if_neg c2, hset]

/-- Contents of the vertex array after both overwriting passes over the
position-initialized array: position from the position stream, normal and
texture coordinate from their streams where those reach, defaults beyond. -/
theorem assembledVertices_spec (ps ns : List Vec3) (ts : List Vec2)
    (vs1 vs2 : List Vertex)
    (h1 : overwriteFrom (fun v n => { v with normal := n })
      (ps.map fun position => { Vertex.default with position := position }) 0 ns
        = some vs1)
    (h2 : overwriteFrom (fun v t => { v with tex_coord := t }) vs1 0 ts = some vs2) :
    vs2.length = ps.length ∧
    ∀ i v, vs2[i]? = some v →
      some v.position = ps[i]? ∧
      v.normal = (if i < ns.length then ns.getD i Vec3.zero else Vec3.zero) ∧
      v.tex_coord = (if i < ts.length then ts.getD i Vec2.zero else Vec2.zero) := by
  have hlen1 := overwriteFrom_length _ ns _ 0 vs1 h1
  have hlen2 := overwriteFrom_length _ ts _ 0 vs2 h2
  have hg1 := overwriteFrom_getElem? _ Vec3.zero ns _ 0 vs1 h1
  have hg2 := overwriteFrom_getElem? _ Vec2.zero ts _ 0 vs2 h2
  constructor
  · simp [hlen2, hlen1]
  · intro i v hv
    have h2i := hg2 i
    have h1i := hg1 i
    simp only [Nat.zero_le, Nat.sub_zero, true_and] at h2i h1i
    have hmap : ((ps.map fun position =>
        { Vertex.default with position := position }) : List Vertex)[i]?
        = (ps[i]?).map fun position => { Vertex.default with position := position } := by
      simp
    rw [hv] at h2i
    by_cases ct : i < ts.length <;> by_cases cn : i < ns.length <;>
        simp only [ct, cn, if_true, if_false, iff_true, iff_false] at h2i h1i ⊢ <;>
      · rw [h1i, hmap] at h2i
        cases hp : ps[i]? with
        | none => rw [hp] at h2i; simp at h2i
        | some pos =>
          rw [hp] at h2i
          simp [Vertex.default] at h2i
          subst h2i
          simp [hp]


/-- Contents of a successfully assembled vertex array, in terms of the
primitive's streams. -/
theorem buildVertices_spec (p : Primitive) (vs : List Vertex)
    (h : buildVertices p = some vs) :
    ∃ ps, p.positions = some ps ∧ vs.length = ps.length ∧
      ∀ i v, vs[i]? = some v →
        some v.position = ps[i]? ∧
        v.normal = (if i < (p.normals.getD []).length
          then (p.normals.getD []).getD i Vec3.zero else Vec3.zero) ∧
        v.tex_coord = (if i < (p.tex_coords.getD []).length
          then (p.tex_coords.getD []).getD i Vec2.zero else Vec2.zero) := by
  cases hps : p.positions with
  | none => simp [buildVertices, hps] at h
  | some ps =>
    simp only [buildVertices, hps] at h
    cases hn : overwriteNormals
        (ps.map fun position => { Vertex.default with position := position })
        p.normals with
    | none => simp only [hn] at h; exact Option.noConfusion h
    | some vs1 =>
      simp only [hn] at h
      refine ⟨ps, rfl, ?_⟩
      have h1 : overwriteFrom (fun v n => { v with normal := n })
          (ps.map fun position => { Vertex.default with position := position }) 0
          (p.normals.getD []) = some vs1 := by
        cases hnn : p.normals with
        | none =>
          rw [hnn] at hn
          simp only [overwriteNormals] at hn
          simpa [overwriteFrom] using hn
        | some ns =>
          rw [hnn] at hn
          simpa [overwriteNormals] using hn
      have h2 : overwriteFrom (fun v t => { v with tex_coord := t }) vs1 0
          (p.tex_coords.getD []) = some vs := by
        cases htt : p.tex_coords with
        | none =>
          rw [htt] at h
          simp only [overwriteTexCoords] at h
          simpa [overwriteFrom] using h
        | some ts =>
          rw [htt] at h
          simpa [overwriteTexCoords] using h
      exact assembledVertices_spec ps (p.normals.getD []) (p.tex_coords.getD [])
        vs1 vs h1 h2

/-- The updated slot always carries the resolved material's base-color
factor, whatever its texture source is. -/
theorem updatedSlot_base_color (file_path : String) (pm : GMaterial)
    (slot : Material) :
    (updatedSlot file_path pm slot).base_color = pm.base_color_factor := by
  cases hbt : pm.base_color_texture with
  | none => simp [updatedSlot, hbt]
  | some s => cases s <;> simp [updatedSlot, hbt]

/-- A primitive whose topology is not a triangle list changes nothing and
emits no mesh. -/
theorem processPrimitive_not_triangles (dm : List GMaterial) (fp : String)
    (p : Primitive) (mats : List Material) (h : p.mode ≠ Mode.triangles) :
    processPrimitive dm fp p mats = some (mats, none) := by
  simp [processPrimitive, h]

/-- Inversion for a successfully processed triangle-list primitive. -/
theorem processPrimitive_triangles_inv (dm : List GMaterial) (fp : String)
    (p : Primitive) (mats : List Material) (r : List Material × Option Mesh)
    (ht : p.mode = Mode.triangles)
    (h : processPrimitive dm fp p mats = some r) :
    ∃ vertices indices prim_material slot,
      buildVertices p = some vertices ∧
      p.indices = some indices ∧
      resolvePrimMaterial dm p.material_index = some prim_material ∧
      mats[p.material_index.getD 0]? = some slot ∧
      r = (mats.set (p.material_index.getD 0) (updatedSlot fp prim_material slot),
        some { vertices := vertices, indices := indices,
               material_idx := p.material_index.getD 0 }) := by
  rw [processPrimitive, if_pos ht] at h
  cases hv : buildVertices p with
  | none => simp only [hv] at h; exact Option.noConfusion h
  | some vertices =>
    simp only [hv] at h
    cases hi : p.indices with
    | none => simp only [hi] at h; exact Option.noConfusion h
    | some indices =>
      simp only [hi] at h
      cases hpm : resolvePrimMaterial dm p.material_index with
      | none => simp only [hpm] at h; exact Option.noConfusion h
      | some prim_material =>
        simp only [hpm] at h
        cases hs : mats[p.material_index.getD 0]? with
        | none => simp only [hs] at h; exact Option.noConfusion h
        | some slot =>
          simp only [hs] at h
          exact ⟨vertices, indices, prim_material, slot, rfl, rfl, rfl, rfl,
            (Option.some.inj h).symm⟩

/-- Any successful primitive step preserves the number of material slots. -/
theorem processPrimitive_length (dm : List GMaterial) (fp : String)
    (p : Primitive) (mats : List Material) (r : List Material × Option Mesh)
    (h : processPrimitive dm fp p mats = some r) : r.1.length = mats.length := by
  by_cases ht : p.mode = Mode.triangles
  · obtain ⟨v, i, pm, s, _, _, _, _, hr⟩ :=
      processPrimitive_triangles_inv dm fp p mats r ht h
    simp [hr]
  · rw [processPrimitive_not_triangles dm fp p mats ht] at h
    obtain rfl := Option.some.inj h
    rfl

/-- A primitive step that emits a mesh is a triangle-list step; the mesh
records the resolved slot index (a valid slot), the declared index stream
and the assembled vertices. -/
theorem processPrimitive_mesh (dm : List GMaterial) (fp : String)
    (p : Primitive) (mats : List Material) (r : List Material × Option Mesh)
    (mesh : Mesh)
    (h : processPrimitive dm fp p mats = some r) (hm : r.2 = some mesh) :
    p.mode = Mode.triangles ∧
    mesh.material_idx = p.material_index.getD 0 ∧
    mesh.material_idx < mats.length ∧
    p.indices = some mesh.indices ∧
    buildVertices p = some mesh.vertices := by
  by_cases ht : p.mode = Mode.triangles
  · obtain ⟨v, i, pm, s, hv, hi, hpm, hs, hr⟩ :=
      processPrimitive_triangles_inv dm fp p mats r ht h
    rw [hr] at hm
    obtain rfl := Option.some.inj hm
    refine ⟨ht, rfl, ?_, hi, hv⟩
    exact (List.getElem?_eq_some.mp hs).1
  · rw [processPrimitive_not_triangles dm fp p mats ht] at h
    obtain rfl := Option.some.inj h
    simp at hm

/-- Processing a primitive list preserves the number of material slots. -/
theorem processPrimitives_length (dm : List GMaterial) (fp : String) :
    ∀ (prims : List Primitive) (meshes : List Mesh) (mats : List Material)
      (out : List Mesh × List Material),
      processPrimitives dm fp prims meshes mats = some out →
      out.2.length = mats.length := by
  intro prims
  induction prims with
  | nil =>
    intro meshes mats out h
    obtain rfl := Option.some.inj h
    rfl
  | cons p rest ih =>
    intro meshes mats out h
    simp only [processPrimitives] at h
    cases hr : processPrimitive dm fp p mats with
    | none => simp only [hr] at h; exact Option.noConfusion h
    | some r =>
      simp only [hr] at h
      have h1 := processPrimitive_length dm fp p mats r hr
      have h2 := ih _ r.1 out h
      omega

/-- Every mesh accumulated over a primitive list either was already in the
accumulator or enjoys any property `Q` guaranteed for meshes emitted by a
single step from a slot array of the running length. -/
theorem processPrimitives_mem (dm : List GMaterial) (fp : String) (N : Nat)
    (Q : Mesh → Prop)
    (hQ : ∀ p mats r mesh, mats.length = N →
      processPrimitive dm fp p mats = some r → r.2 = some mesh → Q mesh) :
    ∀ (prims : List Primitive) (meshes : List Mesh) (mats : List Material)
      (out : List Mesh × List Material),
      mats.length = N →
      processPrimitives dm fp prims meshes mats = some out →
      ∀ m ∈ out.1, m ∈ meshes ∨ Q m := by
  intro prims
  induction prims with
  | nil =>
    intro meshes mats out hN h m hm
    obtain rfl := Option.some.inj h
    exact Or.inl hm
  | cons p rest ih =>
    intro meshes mats out hN h m hm
    simp only [processPrimitives] at h
    cases hr : processPrimitive dm fp p mats with
    | none => simp only [hr] at h; exact Option.noConfusion h
    | some r =>
      simp only [hr] at h
      have hlen : r.1.length = N := by
        rw [processPrimitive_length dm fp p mats r hr]; exact hN
      rcases ih _ r.1 out hlen h m hm with hmem | hq
      · cases hm2 : r.2 with
        | none => rw [hm2] at hmem; exact Or.inl hmem
        | some mesh =>
          rw [hm2] at hmem
          rcases List.mem_append.mp hmem with h1 | h1
          · exact Or.inl h1
          · have heq : m = mesh := by simpa using h1
            subst heq
            exact Or.inr (hQ p mats r m hN hr hm2)
      · exact Or.inr hq

/-- A slot whose index is never the resolved index of a triangle-list
primitive of the list is left untouched. -/
theorem processPrimitives_slot (dm : List GMaterial) (fp : String) (j : Nat) :
    ∀ (prims : List Primitive) (meshes : List Mesh) (mats : List Material)
      (out : List Mesh × List Material),
      (∀ p ∈ prims, p.mode = Mode.triangles → p.material_index.getD 0 ≠ j) →
      processPrimitives dm fp prims meshes mats = some out →
      out.2[j]? = mats[j]? := by
  intro prims
  induction prims with
  | nil =>
    intro meshes mats out _ h
    obtain rfl := Option.some.inj h
    rfl
  | cons p rest ih =>
    intro meshes mats out hun h
    simp only [processPrimitives] at h
    cases hr : processPrimitive dm fp p mats with
    | none => simp only [hr] at h; exact Option.noConfusion h
    | some r =>
      simp only [hr] at h
      have hstep : r.1[j]? = mats[j]? := by
        by_cases ht : p.mode = Mode.triangles
        · obtain ⟨v, i, pm, s, hv, hi, hpm, hs, hreq⟩ :=
            processPrimitive_triangles_inv dm fp p mats r ht hr
          have hne : p.material_index.getD 0 ≠ j := hun p (by simp) ht
          simp [hreq, List.getElem?_set, hne]
        · rw [processPrimitive_not_triangles dm fp p mats ht] at hr
          obtain rfl := Option.some.inj hr
          rfl
      have := ih _ r.1 out (fun q hq => hun q (List.mem_cons_of_mem p hq)) h
      rw [this, hstep]

/-- Processing a concatenation is processing the two halves in order. -/
theorem processPrimitives_append (dm : List GMaterial) (fp : String) :
    ∀ (l₁ l₂ : List Primitive) (meshes : List Mesh) (mats : List Material),
      processPrimitives dm fp (l₁ ++ l₂) meshes mats =
        (processPrimitives dm fp l₁ meshes mats).bind
          fun r => processPrimitives dm fp l₂ r.1 r.2 := by
  intro l₁
  induction l₁ with
  | nil => intro l₂ meshes mats; simp [processPrimitives]
  | cons p rest ih =>
    intro l₂ meshes mats
    simp only [List.cons_append, processPrimitives]
    cases hr : processPrimitive dm fp p mats with
    | none => rfl
    | some r =>
      simp only []
      exact ih l₂ _ r.1

/-- The initial slot array has one slot per declared material, or a single
slot when the document declares none. -/
theorem initialMaterials_length (document : Document) :
    (initialMaterials document).length =
      if document.materials.length = 0 then 1 else document.materials.length := by
  by_cases h0 : document.materials.length = 0
  · simp [initialMaterials, List.isEmpty_iff, h0, List.replicate]
  · simp [initialMaterials, List.isEmpty_iff, h0]

/-- Every initial slot is the default material. -/
theorem initialMaterials_getElem? (document : Document) (j : Nat)
    (hj : j < (initialMaterials document).length) :
    (initialMaterials document)[j]? = some Material.default := by
  have hmem : ∀ x ∈ initialMaterials document, x = Material.default := by
    intro x hx
    simp only [initialMaterials] at hx
    split at hx
    · rcases List.mem_append.mp hx with h1 | h1
      · exact List.eq_of_mem_replicate h1
      · simpa using h1
    · exact List.eq_of_mem_replicate hx
  rw [List.getElem?_eq_getElem hj]
  rw [hmem _ (List.getElem_mem hj)]

/-- A document with no nodes loads to the empty mesh list over the initial
slots. -/
theorem load_model_no_nodes (document : Document) (fp : String)
    (hn : document.nodes = []) :
    load_model document fp =
      some { meshes := [], materials := initialMaterials document } := by
  simp [load_model, hn]

/-- Inversion for a successful load of a document with at least one node:
the model is the outcome of processing that first node over the initial
slots. -/
theorem load_model_some_node (document : Document) (fp : String) (model : Model)
    (node : GNode) (rest : List GNode) (hn : document.nodes = node :: rest)
    (h : load_model document fp = some model) :
    ∃ out, process_node document.materials node [] (initialMaterials document) fp
        = some out ∧
      model.meshes = out.1 ∧ model.materials = out.2 := by
  simp only [load_model, hn] at h
  cases hp : process_node document.materials node [] (initialMaterials document) fp with
  | none => simp only [hp] at h; exact Option.noConfusion h
  | some out =>
    simp only [hp] at h
    have heq := Option.some.inj h
    exact ⟨out, rfl, by rw [← heq], by rw [← heq]⟩

/-- The number of material slots of any loaded model is the initial slot
count. -/
theorem load_model_materials_length (document : Document) (fp : String)
    (model : Model) (h : load_model document fp = some model) :
    model.materials.length = (initialMaterials document).length := by
  cases hn : document.nodes with
  | nil =>
    rw [load_model_no_nodes document fp hn] at h
    obtain rfl := Option.some.inj h
    rfl
  | cons node rest =>
    obtain ⟨out, hout, hm1, hm2⟩ := load_model_some_node document fp model node rest hn h
    rw [hm2]
    cases hnm : node.mesh with
    | none =>
      simp only [process_node, hnm] at hout
      obtain rfl := Option.some.inj hout
      rfl
    | some prims =>
      simp only [process_node, hnm] at hout
      exact processPrimitives_length document.materials fp prims []
        (initialMaterials document) out hout

/-- C1: for every Model returned by load_model, every Mesh.material_idx in
Model.meshes is a valid index into Model.materials (strictly less than the
Model.materials length). -/
theorem C1_material_idx_valid (document : Document) (fp : String) (model : Model)
    (h : load_model document fp = some model) :
    ∀ mesh ∈ model.meshes, mesh.material_idx < model.materials.length := by
  cases hn : document.nodes with
  | nil =>
    rw [load_model_no_nodes document fp hn] at h
    obtain rfl := Option.some.inj h
    intro mesh hm
    simp at hm
  | cons node rest =>
    obtain ⟨out, hout, hm1, hm2⟩ := load_model_some_node document fp model node rest hn h
    intro mesh hmesh
    rw [hm1] at hmesh
    rw [hm2]
    cases hnm : node.mesh with
    | none =>
      simp only [process_node, hnm] at hout
      obtain rfl := Option.some.inj hout
      simp at hmesh
    | some prims =>
      simp only [process_node, hnm] at hout
      have hlen := processPrimitives_length document.materials fp prims []
        (initialMaterials document) out hout
      have hmem := processPrimitives_mem document.materials fp
        (initialMaterials document).length
        (fun m => m.material_idx < (initialMaterials document).length)
        (fun p mats r m hN hr hm' =>
          hN ▸ (processPrimitive_mesh document.materials fp p mats r m hr hm').2.2.1)
        prims [] (initialMaterials document) out rfl hout mesh hmesh
      rcases hmem with hfalse | hlt
      · simp at hfalse
      · rw [hlen]; exact hlt

/-- Witness for C1 on the concrete asset `wDoc1`. -/
theorem C1_witness : wMesh1.material_idx < wModel1.materials.length :=
  C1_material_idx_valid wDoc1 ("w.gltf") wModel1 (by rfl) wMesh1 (by simp [wModel1])

/-- Over an empty declared material list, any emitted mesh resolves to slot
0: an explicit material index would fail to resolve. -/
theorem processPrimitive_mesh_idx_zero (fp : String) (p : Primitive)
    (mats : List Material) (r : List Material × Option Mesh) (mesh : Mesh)
    (h : processPrimitive [] fp p mats = some r) (hm : r.2 = some mesh) :
    mesh.material_idx = 0 := by
  by_cases ht : p.mode = Mode.triangles
  · obtain ⟨v, i, pm, s, hv, hi, hpm, hs, hr⟩ :=
      processPrimitive_triangles_inv [] fp p mats r ht h
    cases hmi : p.material_index with
    | none =>
      rw [hr] at hm
      obtain rfl := Option.some.inj hm
      simp [hmi]
    | some idx =>
      rw [hmi] at hpm
      simp [resolvePrimMaterial] at hpm
  · rw [processPrimitive_not_triangles [] fp p mats ht] at h
    obtain rfl := Option.some.inj h
    simp at hm

/-- C2: the length of Model.materials equals the declared material count
when positive and is exactly 1 when the document declares zero materials;
in the zero-materials case every Mesh.material_idx equals 0. -/
theorem C2_materials_sizing (document : Document) (fp : String) (model : Model)
    (h : load_model document fp = some model) :
    (document.materials.length = 0 →
      model.materials.length = 1 ∧ ∀ mesh ∈ model.meshes, mesh.material_idx = 0) ∧
    (0 < document.materials.length →
      model.materials.length = document.materials.length) := by
  constructor
  · intro h0
    have hempty : document.materials = [] := List.length_eq_zero.mp h0
    refine ⟨?_, ?_⟩
    · rw [load_model_materials_length document fp model h, initialMaterials_length, h0]
      simp
    · intro mesh hmesh
      cases hn : document.nodes with
      | nil =>
        rw [load_model_no_nodes document fp hn] at h
        obtain rfl := Option.some.inj h
        simp at hmesh
      | cons node rest =>
        obtain ⟨out, hout, hm1, hm2⟩ := load_model_some_node document fp model node rest hn h
        rw [hm1] at hmesh
        cases hnm : node.mesh with
        | none =>
          simp only [process_node, hnm] at hout
          obtain rfl := Option.some.inj hout
          simp at hmesh
        | some prims =>
          simp only [process_node, hnm] at hout
          rw [hempty] at hout
          have hmem := processPrimitives_mem [] fp
            (initialMaterials document).length (fun m => m.material_idx = 0)
            (fun p mats r m _ hr hm' =>
              processPrimitive_mesh_idx_zero fp p mats r m hr hm')
            prims [] (initialMaterials document) out rfl hout mesh hmesh
          rcases hmem with hfalse | h0'
          · simp at hfalse
          · exact h0'
  · intro hpos
    rw [load_model_materials_length document fp model h, initialMaterials_length]
    have hne : ¬ document.materials.length = 0 := by omega
    simp [hne]

/-- Witness for C2 on the concrete zero-materials asset `wDoc1`. -/
theorem C2_witness : wModel1.materials.length = 1 ∧ wMesh1.material_idx = 0 :=
  ⟨((C2_materials_sizing wDoc1 ("w.gltf") wModel1 (by rfl)).1 rfl).1,
   ((C2_materials_sizing wDoc1 ("w.gltf") wModel1 (by rfl)).1 rfl).2 wMesh1
     (by simp [wModel1])⟩

/-- C3: load_model processes exactly the first top-level node — truncating
the node list to its first element never changes the result — and a
document with no nodes yields an empty mesh sequence. -/
theorem C3_first_node_only (document : Document) (fp : String) :
    load_model document fp
      = load_model { document with nodes := document.nodes.take 1 } fp ∧
    (document.nodes = [] → (load_model document fp).map Model.meshes = some []) := by
  constructor
  · cases hn : document.nodes with
    | nil => simp [load_model, initialMaterials, hn]
    | cons node rest => simp [load_model, initialMaterials, hn]
  · intro hn
    rw [load_model_no_nodes document fp hn]
    rfl

/-- Witness for C3 on a concrete node-less document. -/
theorem C3_witness :
    (load_model (⟨[], []⟩ : Document) ("w.gltf")).map Model.meshes = some [] :=
  (C3_first_node_only ⟨[], []⟩ ("w.gltf")).2 rfl

/-- C4 counterexample: `cadPrim` is a triangle-list primitive declaring
four indices; the loader converts it into a Mesh whose index count is 4,
which is not a multiple of 3 — refuting the claimed `len % 3 = 0`
invariant. -/
theorem C4_counterexample :
    cadPrim.mode = Mode.triangles ∧
    (load_model cadDoc ("m.gltf")).map
      (fun model => model.meshes.map fun mesh => mesh.indices.length) = some [4] ∧
    ¬ (4 % 3 = 0) :=
  ⟨rfl, by rfl, by decide⟩

/-- C4 (amended): a converted triangle-list primitive's Mesh carries
exactly the declared index stream — its length equals the declared index
count (and so is a multiple of 3 precisely when that count is) — while a
primitive of any other topology contributes no Mesh and leaves the slots
untouched. -/
theorem C4_indices_roundtrip (dm : List GMaterial) (fp : String)
    (p : Primitive) (mats : List Material) (r : List Material × Option Mesh)
    (h : processPrimitive dm fp p mats = some r) :
    (∀ mesh, r.2 = some mesh →
      p.mode = Mode.triangles ∧ p.indices = some mesh.indices) ∧
    (p.mode ≠ Mode.triangles → r = (mats, none)) := by
  constructor
  · intro mesh hm
    obtain ⟨ht, _, _, hi, _⟩ := processPrimitive_mesh dm fp p mats r mesh h hm
    exact ⟨ht, hi⟩
  · intro ht
    rw [processPrimitive_not_triangles dm fp p mats ht] at h
    exact (Option.some.inj h).symm

/-- Witness for the amended C4 on the four-index primitive. -/
theorem C4_witness :
    cadPrim.mode = Mode.triangles ∧ cadPrim.indices = some cadMesh.indices :=
  (C4_indices_roundtrip [] ("m.gltf") cadPrim [Material.default]
    ([Material.default], some cadMesh) (by rfl)).1 cadMesh rfl

/-- C5: when the primitive defines a normal stream, vertex `i` of the
produced mesh carries the `i`-th normal entry for every `i` within the
stream's length, and normal/tex-coord entries beyond the corresponding
supplied stream's length keep their zero defaults. -/
theorem C5_normal_stream (dm : List GMaterial) (fp : String) (p : Primitive)
    (mats : List Material) (r : List Material × Option Mesh) (mesh : Mesh)
    (ns : List Vec3)
    (h : processPrimitive dm fp p mats = some r) (hm : r.2 = some mesh)
    (hns : p.normals = some ns) :
    ∀ i v, mesh.vertices[i]? = some v →
      (i < ns.length → v.normal = ns.getD i Vec3.zero) ∧
      (ns.length ≤ i → v.normal = Vec3.zero) ∧
      ((p.tex_coords.getD []).length ≤ i → v.tex_coord = Vec2.zero) := by
  obtain ⟨_, _, _, _, hbv⟩ := processPrimitive_mesh dm fp p mats r mesh h hm
  obtain ⟨ps, hps, hlen, hpt⟩ := buildVertices_spec p mesh.vertices hbv
  intro i v hv
  obtain ⟨hpos, hnorm, htex⟩ := hpt i v hv
  rw [hns] at hnorm
  refine ⟨?_, ?_, ?_⟩
  · intro hi
    rw [hnorm]
    simp [hi]
  · intro hi
    rw [hnorm]
    simp [Nat.not_lt.mpr hi]
  · intro hi
    rw [htex]
    simp [Nat.not_lt.mpr hi]

/-- Witness for C5 on `w5Prim` (two positions, one supplied normal), at the
second vertex, which lies beyond the normal stream. -/
theorem C5_witness :
    (1 < ([⟨7, 8, 9⟩] : List Vec3).length →
      (⟨⟨4, 5, 6⟩, Vec3.zero, Vec2.zero⟩ : Vertex).normal
        = ([⟨7, 8, 9⟩] : List Vec3).getD 1 Vec3.zero) ∧
    (([⟨7, 8, 9⟩] : List Vec3).length ≤ 1 →
      (⟨⟨4, 5, 6⟩, Vec3.zero, Vec2.zero⟩ : Vertex).normal = Vec3.zero) ∧
    ((w5Prim.tex_coords.getD []).length ≤ 1 →
      (⟨⟨4, 5, 6⟩, Vec3.zero, Vec2.zero⟩ : Vertex).tex_coord = Vec2.zero) :=
  C5_normal_stream [] ("w.gltf") w5Prim [Material.default]
    ([Material.default], some w5Mesh) w5Mesh [⟨7, 8, 9⟩] (by rfl) rfl rfl
    1 ⟨⟨4, 5, 6⟩, Vec3.zero, Vec2.zero⟩ (by rfl)

/-- C6: a single-node asset supplying only positions and indices loads to a
model with exactly one mesh of one vertex per position, each vertex holding
the source position with zero normal and zero texture coordinate. -/
theorem C6_positions_only (ps : List Vec3) (is : List Nat) (fp : String) :
    ∃ model, load_model (singleNodeDoc ps is) fp = some model ∧
      model.meshes.length = 1 ∧
      ∀ mesh ∈ model.meshes,
        mesh.vertices.length = ps.length ∧
        ∀ (i : Nat) (v : Vertex), mesh.vertices[i]? = some v →
          some v.position = ps[i]? ∧ v.normal = Vec3.zero ∧ v.tex_coord = Vec2.zero := by
  refine ⟨⟨[⟨ps.map fun pos => ⟨pos, Vec3.zero, Vec2.zero⟩, is, 0⟩],
    [Material.default]⟩, rfl, rfl, ?_⟩
  intro mesh hmesh
  have hm0 : mesh = ⟨ps.map fun pos => ⟨pos, Vec3.zero, Vec2.zero⟩, is, 0⟩ := by
    simpa using hmesh
  subst hm0
  refine ⟨by simp, ?_⟩
  intro i v hv
  simp only [List.getElem?_map] at hv
  cases hp : ps[i]? with
  | none => rw [hp] at hv; simp at hv
  | some pos =>
    rw [hp] at hv
    simp only [Option.map_some'] at hv
    obtain rfl := (Option.some.inj hv).symm
    simp [hp]

/-- Witness for C6 on a one-position asset. -/
theorem C6_witness :
    ∃ model, load_model (singleNodeDoc [⟨1, 2, 3⟩] [0, 0, 0]) ("w.gltf")
        = some model ∧
      model.meshes.length = 1 ∧
      ∀ mesh ∈ model.meshes,
        mesh.vertices.length = ([⟨1, 2, 3⟩] : List Vec3).length ∧
        ∀ (i : Nat) (v : Vertex), mesh.vertices[i]? = some v →
          some v.position = ([⟨1, 2, 3⟩] : List Vec3)[i]? ∧
            v.normal = Vec3.zero ∧ v.tex_coord = Vec2.zero :=
  C6_positions_only [⟨1, 2, 3⟩] [0, 0, 0] ("w.gltf")

/-- C7: after a successful load whose first node ends with triangle-list
primitive `p`, the slot at `p`'s resolved material index (declared index,
or 0 when none) holds `p`'s resolved PBR base-color factor — the last
processed writer wins. -/
theorem C7_last_writer_wins (document : Document) (fp : String) (node : GNode)
    (rest : List GNode) (prims : List Primitive) (p : Primitive) (model : Model)
    (hn : document.nodes = node :: rest)
    (hm : node.mesh = some (prims ++ [p]))
    (ht : p.mode = Mode.triangles)
    (h : load_model document fp = some model) :
    ∃ pm, resolvePrimMaterial document.materials p.material_index = some pm ∧
      (model.materials[p.material_index.getD 0]?).map Material.base_color
        = some pm.base_color_factor := by
  obtain ⟨out, hout, hm1, hm2⟩ := load_model_some_node document fp model node rest hn h
  simp only [process_node, hm] at hout
  rw [processPrimitives_append] at hout
  cases h1 : processPrimitives document.materials fp prims [] (initialMaterials document) with
  | none => rw [h1] at hout; simp at hout
  | some r1 =>
    rw [h1] at hout
    simp only [Option.some_bind] at hout
    simp only [processPrimitives] at hout
    cases h2 : processPrimitive document.materials fp p r1.2 with
    | none => simp only [h2] at hout; exact Option.noConfusion hout
    | some r2 =>
      simp only [h2] at hout
      obtain rfl := Option.some.inj hout
      obtain ⟨v, i, pm, slot, hv, hi, hpm, hs, hreq⟩ :=
        processPrimitive_triangles_inv document.materials fp p r1.2 r2 ht h2
      refine ⟨pm, hpm, ?_⟩
      rw [hm2]
      have hidx : p.material_index.getD 0 < r1.2.length :=
        (List.getElem?_eq_some.mp hs).1
      simp [hreq, List.getElem?_set, hidx, updatedSlot_base_color]

/-- Witness for C7 on `w7doc`: two primitives write slot 0; the loaded
model keeps the factor of the second. -/
theorem C7_witness :
    ∃ pm, resolvePrimMaterial w7doc.materials w7p2.material_index = some pm ∧
      (w7model.materials[w7p2.material_index.getD 0]?).map Material.base_color
        = some pm.base_color_factor :=
  C7_last_writer_wins w7doc ("w.gltf") ⟨some [w7p1, w7p2]⟩ [] [w7p1] w7p2
    w7model rfl rfl rfl (by rfl)

/-- A triangle-list primitive lacking its position stream or its index
stream makes the primitive step panic. -/
theorem processPrimitive_missing (dm : List GMaterial) (fp : String)
    (p : Primitive) (mats : List Material) (ht : p.mode = Mode.triangles)
    (hbad : p.positions = none ∨ p.indices = none) :
    processPrimitive dm fp p mats = none := by
  rw [processPrimitive, if_pos ht]
  rcases hbad with hb | hb
  · have hbv : buildVertices p = none := by simp [buildVertices, hb]
    simp [hbv]
  · cases hv : buildVertices p with
    | none => simp [hv]
    | some vs => simp [hv, hb]

/-- A primitive list containing a triangle-list primitive with a missing
mandatory stream processes to a panic, wherever that primitive sits. -/
theorem processPrimitives_missing (dm : List GMaterial) (fp : String) :
    ∀ (prims : List Primitive) (meshes : List Mesh) (mats : List Material),
      (∃ p ∈ prims, p.mode = Mode.triangles ∧
        (p.positions = none ∨ p.indices = none)) →
      processPrimitives dm fp prims meshes mats = none := by
  intro prims
  induction prims with
  | nil =>
    intro meshes mats h
    obtain ⟨p, hp, _⟩ := h
    simp at hp
  | cons q rest ih =>
    intro meshes mats h
    obtain ⟨p, hp, ht, hbad⟩ := h
    rcases List.mem_cons.mp hp with rfl | hmem
    · simp only [processPrimitives]
      rw [processPrimitive_missing dm fp p mats ht hbad]
    · simp only [processPrimitives]
      cases hr : processPrimitive dm fp q mats with
      | none => rfl
      | some r =>
        simp only []
        exact ih _ r.1 ⟨p, hmem, ht, hbad⟩

/-- C8: when any triangle-list primitive of the processed node lacks a
position stream or an index stream, the whole load aborts and no Model is
returned. -/
theorem C8_missing_mandatory (document : Document) (fp : String) (node : GNode)
    (rest : List GNode) (prims : List Primitive) (p : Primitive)
    (hn : document.nodes = node :: rest) (hm : node.mesh = some prims)
    (hp : p ∈ prims) (ht : p.mode = Mode.triangles)
    (hbad : p.positions = none ∨ p.indices = none) :
    load_model document fp = none := by
  simp only [load_model, hn, process_node, hm]
  rw [processPrimitives_missing document.materials fp prims []
    (initialMaterials document) ⟨p, hp, ht, hbad⟩]

/-- Witness for C8 on `w8doc`, whose only primitive has no positions. -/
theorem C8_witness : load_model w8doc ("w.gltf") = none :=
  C8_missing_mandatory w8doc ("w.gltf") ⟨some [w8p]⟩ [] [w8p] w8p rfl rfl
    (by simp) rfl (Or.inl rfl)

/-- C9: when the resolved material's base-color texture is a file-relative
URI, the slot stores the texture loaded from the asset's parent directory
joined with that URI (for example `foo.png` beside `/assets/scene.gltf`
resolves to `/assets/foo.png`); a buffer-view (non-URI) texture source
stores no texture — the slot's texture field is left as it was. -/
theorem C9_texture_resolution (dm : List GMaterial) (fp : String)
    (p : Primitive) (mats : List Material) (r : List Material × Option Mesh)
    (mesh : Mesh) (pm : GMaterial)
    (h : processPrimitive dm fp p mats = some r) (hm : r.2 = some mesh)
    (hpm : resolvePrimMaterial dm p.material_index = some pm) :
    (∀ u, pm.base_color_texture = some (ImageSource.uri u) →
      (r.1[mesh.material_idx]?).map Material.base_color_texture
        = some (some (load_texture (texturePath fp u)))) ∧
    (pm.base_color_texture = some ImageSource.view →
      (r.1[mesh.material_idx]?).map Material.base_color_texture
        = (mats[mesh.material_idx]?).map Material.base_color_texture) ∧
    texturePath ("/assets/scene.gltf") ("foo.png") = ("/assets/foo.png") := by
  have ht : p.mode = Mode.triangles :=
    (processPrimitive_mesh dm fp p mats r mesh h hm).1
  obtain ⟨v, i, pm', slot, hv, hi, hpm', hs, hreq⟩ :=
    processPrimitive_triangles_inv dm fp p mats r ht h
  have hpm2 : pm' = pm := by rw [hpm'] at hpm; exact Option.some.inj hpm
  subst hpm2
  have hmi : mesh.material_idx = p.material_index.getD 0 := by
    rw [hreq] at hm
    obtain rfl := Option.some.inj hm
    rfl
  have hidx : p.material_index.getD 0 < mats.length :=
    (List.getElem?_eq_some.mp hs).1
  refine ⟨?_, ?_, by rfl⟩
  · intro u hu
    simp [hreq, hmi, List.getElem?_set, hidx, updatedSlot, hu]
  · intro hu
    simp [hreq, hmi, List.getElem?_set, hidx, updatedSlot, hu, hs]

/-- Witness for C9 on `w9p`/`w9gm` loaded from `/assets/scene.gltf`. -/
theorem C9_witness :
    (w9mats[w9mesh.material_idx]?).map Material.base_color_texture
      = some (some (load_texture (texturePath ("/assets/scene.gltf") ("foo.png")))) :=
  (C9_texture_resolution [w9gm] ("/assets/scene.gltf") w9p [Material.default]
    (w9mats, some w9mesh) w9mesh w9gm (by rfl) rfl (by rfl)).1 ("foo.png") rfl

/-- C10: a material slot whose index is never the resolved index of any
triangle-list primitive of the first node stays exactly the default
material — declared factors of unreferenced document materials are never
copied into the model. -/
theorem C10_untouched_slots_default (document : Document) (fp : String)
    (model : Model) (j : Nat)
    (h : load_model document fp = some model)
    (hj : j < model.materials.length)
    (hun : ∀ p ∈ firstNodePrimitives document, p.mode = Mode.triangles →
      p.material_index.getD 0 ≠ j) :
    model.materials[j]? = some Material.default := by
  have hlen : model.materials.length = (initialMaterials document).length :=
    load_model_materials_length document fp model h
  have hjinit : j < (initialMaterials document).length := hlen ▸ hj
  cases hn : document.nodes with
  | nil =>
    rw [load_model_no_nodes document fp hn] at h
    obtain rfl := Option.some.inj h
    exact initialMaterials_getElem? document j hjinit
  | cons node rest =>
    obtain ⟨out, hout, hm1, hm2⟩ := load_model_some_node document fp model node rest hn h
    rw [hm2]
    cases hnm : node.mesh with
    | none =>
      simp only [process_node, hnm] at hout
      obtain rfl := Option.some.inj hout
      exact initialMaterials_getElem? document j hjinit
    | some prims =>
      simp only [process_node, hnm] at hout
      have hfnp : firstNodePrimitives document = prims := by
        simp [firstNodePrimitives, hn, hnm]
      have hslot := processPrimitives_slot document.materials fp j prims []
        (initialMaterials document) out
        (fun p hp htp => hun p (hfnp ▸ hp) htp) hout
      rw [hslot]
      exact initialMaterials_getElem? document j hjinit

/-- Witness for C10 on `w10doc`: the declared factor `(2,3,4,5)` of the
unreferenced material never reaches the model; slot 0 stays default. -/
theorem C10_witness :
    (Model.mk [] [Material.default]).materials[0]? = some Material.default :=
  C10_untouched_slots_default w10doc ("w.gltf") ⟨[], [Material.default]⟩ 0
    (by rfl) (by decide)
    (fun p hp => by simp [firstNodePrimitives, w10doc] at hp)

end Motley
